import Mathlib

/-!
Shallow embedding of `src/components/Inputs/DebouncedTextInput/index.tsx`.

The component is a React function component. We embed it as an explicit
state machine over a component state that records:
  * the props last rendered (`value`, `onChange`, `debounceMs`; the purely
    cosmetic props `label`, `placeHolder`, `error` never touch the
    controller logic and are omitted);
  * `internalValue`, the `useState` cell (line 38);
  * `ref`, the `debounceTimerRef` cell (line 40), holding the id of the
    timer it points to, if any;
  * `timers`, the timers currently live in the JS runtime (a `setTimeout`
    that has been neither cleared nor fired).  Keeping this as a list —
    rather than identifying it with `ref` — lets the "at most one live
    timer" claim be a real invariant instead of a definitional triviality;
  * `nextId`, a fresh-id counter for `setTimeout` handles;
  * `commits`, the log of invocations of the `onChange` prop (the commit
    edge).  Callback functions are modelled by an identity token (`Nat`),
    since only which function is called and with what argument matters.

React semantics embedded:
  * an effect re-runs exactly when one entry of its dependency array
    changed (`Object.is`, which is string/number equality here); on a
    re-run its previous cleanup executes first;
  * `setInternalValue` with a value equal to the current state bails out:
    no re-render, no effect re-run;
  * between externally delivered events the component is quiescent (all
    scheduled renders and effects have flushed), so each transition
    function below performs a full flush.
-/

namespace DebouncedTextInput

/-- The props of the component that the controller logic reads
(`value`, `onChange`, `debounceMs`, lines 31-35).  `onChange` is the
identity token of the callback, `none` when the prop is absent. -/
structure Props where
  value : Option String
  onChange : Option Nat
  debounceMs : Nat
  deriving DecidableEq, Repr

/-- A timer live in the JS runtime: the `setTimeout` at line 57.  Its
callback closure captures `internalValue` and `onChange` from the render
in which the effect body ran. -/
structure Timer where
  id : Nat
  capturedInternal : String
  capturedOnChange : Option Nat
  remaining : Nat
  deriving DecidableEq, Repr

/-- One invocation of the `onChange` prop (lines 60-65): the synthetic
change event carries the captured internal value under both
`target.value` and `currentTarget.value`. -/
structure Commit where
  targetValue : String
  currentTargetValue : String
  callback : Nat
  deriving DecidableEq, Repr

/-- The full component state plus the timer-relevant part of the JS
runtime. -/
structure CompState where
  props : Props
  internalValue : String
  ref : Option Nat
  timers : List Timer
  nextId : Nat
  commits : List Commit
  mounted : Bool
  deriving DecidableEq, Repr

/-- `value || ''`: the external value with an absent prop read as the
empty string (lines 38, 44, 50). -/
def extVal (p : Props) : String := p.value.getD ""

/-- `clearTimeout(n)`: the runtime drops the timer with handle `n`. -/
def clearTimeout (s : CompState) (n : Nat) : CompState :=
  { s with timers := s.timers.filter (fun t => t.id != n) }

/-- The cleanup of the debounce effect (lines 72-77): if the ref holds a
handle, clear that timer saand null the ref. -/
def effectCleanup (s : CompState) : CompState :=
  match s.ref with
  | some n => { clearTimeout s n with ref := none }
  | none => s

/-- The body of the debounce effect (lines 49-69): when the internal
value diverges from the external one, clear the timer the ref points to
(lines 52-54, without nulling the ref) and schedule a fresh timer of
length `debounceMs` whose closure captures the current `internalValue`
and `onChange` (lines 57-68). -/
def effectBody (s : CompState) : CompState :=
  if s.internalValue ≠ extVal s.props then
    let s1 := match s.ref with
      | some n => clearTimeout s n
      | none => s
    { s1 with
      timers := s1.timers ++
        [{ id := s1.nextId, capturedInternal := s1.internalValue,
           capturedOnChange := s1.props.onChange,
           remaining := s1.props.debounceMs }],
      ref := some s1.nextId,
      nextId := s1.nextId + 1 }
  else s

/-- A re-run of the debounce effect: previous cleanup, then body. -/
def runEffect2 (s : CompState) : CompState := effectBody (effectCleanup s)

/-- Mount: `useState(value || '')` initialises the internal value
(line 38), the ref starts null (line 40), then both effects run for the
first time.  The sync effect (lines 43-45) sets the internal value to
`value || ''`, which it already equals, so it bails; the debounce effect
body runs with no prior cleanup. -/
def mount (p : Props) : CompState :=
  effectBody { props := p, internalValue := extVal p, ref := none,
               timers := [], nextId := 0, commits := [], mounted := true }

/-- A raw keystroke: `handleInputChange` (lines 84-88) sets the internal
value to the new text.  If the text equals the current internal value the
state update bails out (no re-render, no effect re-run); otherwise the
debounce effect re-runs, since its dependency `internalValue` changed
while `value`, `onChange` and `debounceMs` did not. -/
def handleInputChange (s : CompState) (t : String) : CompState :=
  if t = s.internalValue then s
  else runEffect2 { s with internalValue := t }

/-- The owner re-renders the component with new props.  In the first
commit, the sync effect (deps `[value]`, lines 43-45) re-runs iff `value`
changed, queueing `setInternalValue(value || '')`; the debounce effect
(deps `[internalValue, value, onChange, debounceMs]`, line 78) re-runs
iff any of the three prop deps changed, still seeing the old internal
value.  The queued state update then commits — unless it bails out
because the internal value already equals `value || ''` — and in that
second commit the debounce effect re-runs again (its `internalValue`
dependency changed). -/
def applyProps (s : CompState) (p : Props) : CompState :=
  let s1 : CompState := { s with props := p }
  let s1 := if p.value ≠ s.props.value ∨ p.onChange ≠ s.props.onChange ∨
               p.debounceMs ≠ s.props.debounceMs
            then runEffect2 s1 else s1
  if p.value ≠ s.props.value ∧ extVal p ≠ s1.internalValue then
    runEffect2 { s1 with internalValue := extVal p }
  else s1

/-- Expiry of timer `t`: the runtime drops the one-shot timer and runs
its callback (lines 57-68): if the captured `onChange` exists it is
invoked with the synthetic change event carrying the captured internal
value in both fields (lines 58-66), then the ref is nulled (line 67). -/
def fireTimer (s : CompState) (t : Timer) : CompState :=
  let s1 := { s with timers := s.timers.filter (fun u => u.id != t.id) }
  let s2 : CompState := match t.capturedOnChange with
    | some cb =>
      { s1 with commits := s1.commits ++
          [{ targetValue := t.capturedInternal,
             currentTargetValue := t.capturedInternal, callback := cb }] }
    | none => s1
  { s2 with ref := none }

/-- `d` milliseconds pass with no component event: every live timer whose
remaining delay is at most `d` fires, the rest count down. -/
def advance (s : CompState) (d : Nat) : CompState :=
  let due := s.timers.filter (fun t => decide (t.remaining ≤ d))
  let s1 := due.foldl fireTimer s
  { s1 with timers := s1.timers.map (fun t => { t with remaining := t.remaining - d }) }

/-- Unmount: React runs the effect cleanups (lines 72-77 for the debounce
effect; the sync effect has none), then the instance is gone. -/
def teardown (s : CompState) : CompState :=
  { effectCleanup s with mounted := false }

/-- The externally delivered events of the event loop. -/
inductive Event where
  | keystroke (text : String)
  | setProps (p : Props)
  | elapse (d : Nat)
  | unmount
  deriving DecidableEq, Repr

/-- One event.  Component handlers only run while mounted; time passes —
and undisposed timers fire — regardless. -/
def step (s : CompState) (e : Event) : CompState :=
  match e with
  | .keystroke t => if s.mounted then handleInputChange s t else s
  | .setProps p => if s.mounted then applyProps s p else s
  | .elapse d => advance s d
  | .unmount => if s.mounted then teardown s else s

/-- A run of the event loop. -/
def run (s : CompState) (evs : List Event) : CompState := evs.foldl step s

/-- The value handed to the rendered Mantine widget (line 94). -/
def rendered (s : CompState) : String := s.internalValue

/-- Well-formedness: the ref and the runtime agree — either no live timer
and a null ref, or exactly one live timer, pointed to by the ref, with a
handle below the fresh-id counter. -/
def WF (s : CompState) : Prop :=
  (s.ref = none ∧ s.timers = []) ∨
  (∃ t, s.ref = some t.id ∧ s.timers = [t] ∧ t.id < s.nextId)

example :
    run (mount ⟨none, some 0, 3000⟩) [.keystroke "a", .elapse 3000] =
      ⟨⟨none, some 0, 3000⟩, "a", none, [], 1, [⟨"a", "a", 0⟩], true⟩ := by
  decide

/-! ### Field-preservation lemmas -/

@[simp] lemma clearTimeout_props (s : CompState) (n : Nat) :
    (clearTimeout s n).props = s.props := rfl

@[simp] lemma clearTimeout_internal (s : CompState) (n : Nat) :
    (clearTimeout s n).internalValue = s.internalValue := rfl

@[simp] lemma clearTimeout_commits (s : CompState) (n : Nat) :
    (clearTimeout s n).commits = s.commits := rfl

@[simp] lemma effectCleanup_props (s : CompState) :
    (effectCleanup s).props = s.props := by
  unfold effectCleanup; split <;> rfl

@[simp] lemma effectCleanup_internal (s : CompState) :
    (effectCleanup s).internalValue = s.internalValue := by
  unfold effectCleanup; split <;> rfl

@[simp] lemma effectCleanup_commits (s : CompState) :
    (effectCleanup s).commits = s.commits := by
  unfold effectCleanup; split <;> rfl

@[simp] lemma effectCleanup_mounted (s : CompState) :
    (effectCleanup s).mounted = s.mounted := by
  unfold effectCleanup; split <;> rfl

@[simp] lemma effectCleanup_nextId (s : CompState) :
    (effectCleanup s).nextId = s.nextId := by
  unfold effectCleanup; split <;> rfl

@[simp] lemma effectBody_props (s : CompState) :
    (effectBody s).props = s.props := by
  unfold effectBody; split
  · split <;> rfl
  · rfl

@[simp] lemma effectBody_internal (s : CompState) :
    (effectBody s).internalValue = s.internalValue := by
  unfold effectBody; split
  · split <;> rfl
  · rfl

@[simp] lemma effectBody_commits (s : CompState) :
    (effectBody s).commits = s.commits := by
  unfold effectBody; split
  · split <;> rfl
  · rfl

@[simp] lemma effectBody_mounted (s : CompState) :
    (effectBody s).mounted = s.mounted := by
  unfold effectBody; split
  · split <;> rfl
  · rfl

@[simp] lemma runEffect2_props (s : CompState) :
    (runEffect2 s).props = s.props := by
  unfold runEffect2; simp

@[simp] lemma runEffect2_internal (s : CompState) :
    (runEffect2 s).internalValue = s.internalValue := by
  unfold runEffect2; simp

@[simp] lemma runEffect2_commits (s : CompState) :
    (runEffect2 s).commits = s.commits := by
  unfold runEffect2; simp

@[simp] lemma runEffect2_mounted (s : CompState) :
    (runEffect2 s).mounted = s.mounted := by
  unfold runEffect2; simp

@[simp] lemma fireTimer_ref (s : CompState) (t : Timer) :
    (fireTimer s t).ref = none := by
  unfold fireTimer; split <;> rfl

@[simp] lemma fireTimer_timers (s : CompState) (t : Timer) :
    (fireTimer s t).timers = s.timers.filter (fun u => u.id != t.id) := by
  unfold fireTimer; split <;> rfl

@[simp] lemma fireTimer_props (s : CompState) (t : Timer) :
    (fireTimer s t).props = s.props := by
  unfold fireTimer; split <;> rfl

@[simp] lemma fireTimer_internal (s : CompState) (t : Timer) :
    (fireTimer s t).internalValue = s.internalValue := by
  unfold fireTimer; split <;> rfl

@[simp] lemma fireTimer_mounted (s : CompState) (t : Timer) :
    (fireTimer s t).mounted = s.mounted := by
  unfold fireTimer; split <;> rfl

@[simp] lemma fireTimer_nextId (s : CompState) (t : Timer) :
    (fireTimer s t).nextId = s.nextId := by
  unfold fireTimer; split <;> rfl

/-! ### Structural characterizations -/

lemma effectCleanup_of_WF (s : CompState) (h : WF s) :
    effectCleanup s = { s with ref := none, timers := [] } := by
  rcases h with ⟨h1, h2⟩ | ⟨t, h1, h2, _⟩ <;> cases s <;>
    simp_all [effectCleanup, clearTimeout]

lemma runEffect2_div (s : CompState) (h : WF s)
    (hd : s.internalValue ≠ extVal s.props) :
    runEffect2 s =
      { s with
          ref := some s.nextId,
          timers := [{ id := s.nextId, capturedInternal := s.internalValue,
                       capturedOnChange := s.props.onChange,
                       remaining := s.props.debounceMs }],
          nextId := s.nextId + 1 } := by
  rw [runEffect2, effectCleanup_of_WF s h]
  unfold effectBody
  simp [hd]

lemma runEffect2_idle (s : CompState) (h : WF s)
    (he : s.internalValue = extVal s.props) :
    runEffect2 s = { s with ref := none, timers := [] } := by
  rw [runEffect2, effectCleanup_of_WF s h]
  unfold effectBody
  simp [he]

lemma mount_eq (p : Props) :
    mount p = { props := p, internalValue := extVal p, ref := none,
                timers := [], nextId := 0, commits := [], mounted := true } := by
  unfold mount effectBody
  simp

lemma advance_nil (s : CompState) (d : Nat) (h : s.timers = []) :
    advance s d = s := by
  cases s
  simp_all [advance]

/-! ### Preservation of well-formedness -/

lemma wf_runEffect2 (s : CompState) (h : WF s) : WF (runEffect2 s) := by
  by_cases hd : s.internalValue = extVal s.props
  · rw [runEffect2_idle s h hd]; left; exact ⟨rfl, rfl⟩
  · rw [runEffect2_div s h hd]; right
    exact ⟨{ id := s.nextId, capturedInternal := s.internalValue,
             capturedOnChange := s.props.onChange,
             remaining := s.props.debounceMs },
           rfl, rfl, Nat.lt_succ_self _⟩

lemma wf_handleInputChange (s : CompState) (t : String) (h : WF s) :
    WF (handleInputChange s t) := by
  unfold handleInputChange
  split
  · exact h
  · exact wf_runEffect2 _ h

lemma wf_applyProps (s : CompState) (p : Props) (h : WF s) :
    WF (applyProps s p) := by
  unfold applyProps
  dsimp only
  split_ifs <;>
    first
      | exact h
      | exact wf_runEffect2 _ h
      | exact wf_runEffect2 _ (wf_runEffect2 _ h)

lemma wf_advance (s : CompState) (d : Nat) (h : WF s) : WF (advance s d) := by
  rcases h with ⟨h1, h2⟩ | ⟨t, h1, h2, h3⟩
  · rw [advance_nil s d h2]; left; exact ⟨h1, h2⟩
  · unfold advance
    by_cases hr : t.remaining ≤ d
    · have hdue : s.timers.filter (fun u => decide (u.remaining ≤ d)) = [t] := by
        rw [h2]; simp [hr]
      rw [hdue]
      left
      constructor
      · simp
      · simp [h2]
    · have hdue : s.timers.filter (fun u => decide (u.remaining ≤ d)) = [] := by
        rw [h2]; simp [hr]
      rw [hdue]
      right
      refine ⟨{ t with remaining := t.remaining - d }, h1, ?_, h3⟩
      simp [h2]

lemma wf_teardown (s : CompState) (h : WF s) : WF (teardown s) := by
  unfold teardown
  rw [effectCleanup_of_WF s h]
  left; exact ⟨rfl, rfl⟩

lemma wf_step (s : CompState) (e : Event) (h : WF s) : WF (step s e) := by
  cases e with
  | keystroke t =>
    simp only [step]; split
    · exact wf_handleInputChange s t h
    · exact h
  | setProps p =>
    simp only [step]; split
    · exact wf_applyProps s p h
    · exact h
  | elapse d => exact wf_advance s d h
  | unmount =>
    simp only [step]; split
    · exact wf_teardown s h
    · exact h

lemma wf_run (s : CompState) (evs : List Event) (h : WF s) :
    WF (run s evs) := by
  induction evs generalizing s with
  | nil => exact h
  | cons e rest ih => exact ih (step s e) (wf_step s e h)

lemma wf_mount (p : Props) : WF (mount p) := by
  rw [mount_eq]; left; exact ⟨rfl, rfl⟩

/-! ### More characterizations -/

lemma run_map_elapse_nil (ds : List Nat) (s : CompState) (h : s.timers = []) :
    run s (ds.map Event.elapse) = s := by
  induction ds with
  | nil => rfl
  | cons d rest ih =>
    show run (step s (.elapse d)) (rest.map Event.elapse) = s
    have : step s (.elapse d) = s := advance_nil s d h
    rw [this, ih]

lemma step_of_unmounted (s : CompState) (e : Event) (hm : s.mounted = false)
    (ht : s.timers = []) : step s e = s := by
  cases e with
  | keystroke t => simp [step, hm]
  | setProps p => simp [step, hm]
  | elapse d => exact advance_nil s d ht
  | unmount => simp [step, hm]

lemma run_of_unmounted (evs : List Event) (s : CompState)
    (hm : s.mounted = false) (ht : s.timers = []) : run s evs = s := by
  induction evs with
  | nil => rfl
  | cons e rest ih =>
    show run (step s e) rest = s
    rw [step_of_unmounted s e hm ht, ih]

lemma props_ne_fields (p q : Props) (h : p ≠ q) :
    p.value ≠ q.value ∨ p.onChange ≠ q.onChange ∨ p.debounceMs ≠ q.debounceMs := by
  by_contra hc
  push_neg at hc
  exact h (by cases p; cases q; simp_all)

lemma applyProps_commits (s : CompState) (p : Props) :
    (applyProps s p).commits = s.commits := by
  unfold applyProps
  dsimp only
  split_ifs <;> simp

/-- After a props change that re-runs the debounce effect, any live timer
is the freshly scheduled one. -/
lemma applyProps_timers_fresh (s : CompState) (p : Props) (hwf : WF s)
    (hc1 : p.value ≠ s.props.value ∨ p.onChange ≠ s.props.onChange ∨
      p.debounceMs ≠ s.props.debounceMs) :
    (applyProps s p).timers = [] ∨
    ∃ T, (applyProps s p).timers = [T] ∧ T.id = s.nextId := by
  unfold applyProps
  dsimp only
  rw [if_pos hc1]
  by_cases he : s.internalValue = extVal p
  · have hB := runEffect2_idle { s with props := p } hwf he
    rw [hB]
    rw [if_neg (by rintro ⟨-, h2⟩; exact h2 he.symm)]
    left; rfl
  · have hB := runEffect2_div { s with props := p } hwf he
    rw [hB]
    by_cases hc2 : p.value ≠ s.props.value ∧ extVal p ≠ s.internalValue
    · rw [if_pos hc2]
      have hwf2 : WF ({ s with
          props := p, internalValue := extVal p, ref := some s.nextId,
          timers := [{ id := s.nextId, capturedInternal := s.internalValue,
                       capturedOnChange := p.onChange,
                       remaining := p.debounceMs }],
          nextId := s.nextId + 1 } : CompState) := by
        right
        exact ⟨{ id := s.nextId, capturedInternal := s.internalValue,
                 capturedOnChange := p.onChange, remaining := p.debounceMs },
               rfl, rfl, Nat.lt_succ_self _⟩
      rw [runEffect2_idle _ hwf2 rfl]
      left; rfl
    · rw [if_neg hc2]
      right
      exact ⟨_, rfl, rfl⟩

/-! ### Claim theorems -/

/-- C1: in any well-formed state where InternalValue differs from
ExternalValue (absent treated as empty), the scheduling rule (the
debounce effect) replaces any existing pending timer by a single fresh
timer of length `debounceMs` capturing InternalValue and the commit
callback; letting `debounceMs` elapse invokes the callback exactly once
with a change event carrying InternalValue in both `target.value` and
`currentTarget.value`, clears the timer handle, and does not reschedule:
further passage of time changes nothing. -/
theorem scheduling_rule_commits_once (s : CompState) (cb : Nat)
    (hwf : WF s) (hd : s.internalValue ≠ extVal s.props)
    (hcb : s.props.onChange = some cb) :
    (runEffect2 s).ref = some s.nextId ∧
    (runEffect2 s).timers =
      [{ id := s.nextId, capturedInternal := s.internalValue,
         capturedOnChange := some cb, remaining := s.props.debounceMs }] ∧
    (∀ t ∈ s.timers, t ∉ (runEffect2 s).timers) ∧
    (runEffect2 s).commits = s.commits ∧
    (advance (runEffect2 s) s.props.debounceMs).commits =
      s.commits ++ [{ targetValue := s.internalValue,
                      currentTargetValue := s.internalValue,
                      callback := cb }] ∧
    (advance (runEffect2 s) s.props.debounceMs).timers = [] ∧
    (advance (runEffect2 s) s.props.debounceMs).ref = none ∧
    ∀ d, advance (advance (runEffect2 s) s.props.debounceMs) d =
      advance (runEffect2 s) s.props.debounceMs := by
  rw [runEffect2_div s hwf hd]
  have hadv :
      advance ({ s with
        ref := some s.nextId,
        timers := [{ id := s.nextId, capturedInternal := s.internalValue,
                     capturedOnChange := s.props.onChange,
                     remaining := s.props.debounceMs }],
        nextId := s.nextId + 1 } : CompState) s.props.debounceMs =
      { s with
        ref := none, timers := [], nextId := s.nextId + 1,
        commits := s.commits ++
          [{ targetValue := s.internalValue,
             currentTargetValue := s.internalValue, callback := cb }] } := by
    unfold advance
    simp [fireTimer, hcb]
  refine ⟨rfl, by rw [hcb], ?_, rfl, by rw [hadv], by rw [hadv], by rw [hadv], ?_⟩
  · rcases hwf with ⟨-, h2⟩ | ⟨t0, -, h2, h3⟩
    · rw [h2]; intro t ht; cases ht
    · rw [h2]; intro t ht
      rw [List.mem_singleton] at ht
      subst ht
      intro hmem
      rw [List.mem_singleton] at hmem
      have : t.id = s.nextId := by rw [hmem]
      omega
  · intro d
    rw [hadv]
    exact advance_nil _ d rfl

/-- Witness for C1 at a concrete dirty state. -/
theorem scheduling_rule_commits_once_witness :
    WF (⟨⟨some "x", some 7, 500⟩, "y", none, [], 0, [], true⟩ : CompState) ∧
    ("y" : String) ≠ extVal ⟨some "x", some 7, 500⟩ ∧
    (advance (runEffect2 ⟨⟨some "x", some 7, 500⟩, "y", none, [], 0, [], true⟩)
        500).commits = [⟨"y", "y", 7⟩] := by
  have h := scheduling_rule_commits_once
    ⟨⟨some "x", some 7, 500⟩, "y", none, [], 0, [], true⟩ 7
    (Or.inl ⟨rfl, rfl⟩) (by decide) rfl
  exact ⟨Or.inl ⟨rfl, rfl⟩, by decide, h.2.2.2.2.1⟩

/-- C3: a keystroke that brings InternalValue back to ExternalValue
(absent treated as empty) before the pending timer expires cancels the
timer, nulls the ref, fires no commit, and no commit ever fires
afterwards however much time passes. -/
theorem idempotent_return_cancels (s : CompState) (t : String)
    (ds : List Nat) (hwf : WF s) (hm : s.mounted = true)
    (hne : t ≠ s.internalValue) (heq : t = extVal s.props) :
    (step s (.keystroke t)).timers = [] ∧
    (step s (.keystroke t)).ref = none ∧
    (step s (.keystroke t)).commits = s.commits ∧
    (run (step s (.keystroke t)) (ds.map Event.elapse)).commits =
      s.commits := by
  have h1 : step s (.keystroke t) = runEffect2 { s with internalValue := t } := by
    simp [step, hm, handleInputChange, hne]
  have h2 : runEffect2 { s with internalValue := t } =
      { s with internalValue := t, ref := none, timers := [] } :=
    runEffect2_idle _ hwf heq
  rw [h1, h2]
  refine ⟨rfl, rfl, rfl, ?_⟩
  rw [run_map_elapse_nil ds _ rfl]

/-- Witness for C3: user retypes the external value while a timer is
pending. -/
theorem idempotent_return_cancels_witness :
    WF (⟨⟨some "x", some 7, 500⟩, "y", some 0, [⟨0, "y", some 7, 500⟩],
      1, [], true⟩ : CompState) ∧
    ("x" : String) ≠ "y" ∧ ("x" : String) = extVal ⟨some "x", some 7, 500⟩ ∧
    (step (⟨⟨some "x", some 7, 500⟩, "y", some 0, [⟨0, "y", some 7, 500⟩],
        1, [], true⟩ : CompState) (.keystroke "x")).timers = [] ∧
    (run (step (⟨⟨some "x", some 7, 500⟩, "y", some 0,
        [⟨0, "y", some 7, 500⟩], 1, [], true⟩ : CompState) (.keystroke "x"))
      ([1000, 1000].map Event.elapse)).commits = [] := by
  have h := idempotent_return_cancels
    ⟨⟨some "x", some 7, 500⟩, "y", some 0, [⟨0, "y", some 7, 500⟩], 1, [], true⟩
    "x" [1000, 1000]
    (Or.inr ⟨⟨0, "y", some 7, 500⟩, rfl, rfl, by decide⟩)
    rfl (by decide) (by decide)
  exact ⟨Or.inr ⟨⟨0, "y", some 7, 500⟩, rfl, rfl, by decide⟩,
    by decide, by decide, h.1, h.2.2.2⟩

/-- C7: a push of a changed ExternalValue overwrites InternalValue
immediately and unconditionally with the new value, cancels any pending
timer (InternalValue now matches ExternalValue), and fires no commit. -/
theorem external_override (s : CompState) (p : Props) (hwf : WF s)
    (hm : s.mounted = true) (hv : p.value ≠ s.props.value) :
    (step s (.setProps p)).internalValue = extVal p ∧
    (step s (.setProps p)).timers = [] ∧
    (step s (.setProps p)).ref = none ∧
    (step s (.setProps p)).commits = s.commits := by
  have hstep : step s (.setProps p) = applyProps s p := by simp [step, hm]
  rw [hstep]
  unfold applyProps
  dsimp only
  rw [if_pos (Or.inl hv)]
  by_cases he : s.internalValue = extVal p
  · have hB := runEffect2_idle { s with props := p } hwf he
    rw [hB]
    rw [if_neg (by rintro ⟨-, h2⟩; exact h2 he.symm)]
    exact ⟨he, rfl, rfl, rfl⟩
  · have hB := runEffect2_div { s with props := p } hwf he
    rw [hB]
    rw [if_pos ⟨hv, fun h => he h.symm⟩]
    have hwf2 : WF ({ s with
        props := p, internalValue := extVal p, ref := some s.nextId,
        timers := [{ id := s.nextId, capturedInternal := s.internalValue,
                     capturedOnChange := p.onChange,
                     remaining := p.debounceMs }],
        nextId := s.nextId + 1 } : CompState) := by
      right
      exact ⟨{ id := s.nextId, capturedInternal := s.internalValue,
               capturedOnChange := p.onChange, remaining := p.debounceMs },
             rfl, rfl, Nat.lt_succ_self _⟩
    rw [runEffect2_idle _ hwf2 rfl]
    exact ⟨rfl, rfl, rfl, rfl⟩

/-- Witness for C7: the owner pushes a new value while an edit is
pending. -/
theorem external_override_witness :
    WF (⟨⟨some "x", some 7, 500⟩, "y", some 0, [⟨0, "y", some 7, 500⟩],
      1, [], true⟩ : CompState) ∧
    (some "z" : Option String) ≠ some "x" ∧
    (step (⟨⟨some "x", some 7, 500⟩, "y", some 0, [⟨0, "y", some 7, 500⟩],
        1, [], true⟩ : CompState)
      (.setProps ⟨some "z", some 7, 500⟩)).internalValue = "z" ∧
    (step (⟨⟨some "x", some 7, 500⟩, "y", some 0, [⟨0, "y", some 7, 500⟩],
        1, [], true⟩ : CompState)
      (.setProps ⟨some "z", some 7, 500⟩)).timers = [] := by
  have h := external_override
    ⟨⟨some "x", some 7, 500⟩, "y", some 0, [⟨0, "y", some 7, 500⟩], 1, [], true⟩
    ⟨some "z", some 7, 500⟩
    (Or.inr ⟨⟨0, "y", some 7, 500⟩, rfl, rfl, by decide⟩)
    rfl (by decide)
  exact ⟨Or.inr ⟨⟨0, "y", some 7, 500⟩, rfl, rfl, by decide⟩,
    by decide, h.1, h.2.1⟩

/-- C8: every keystroke sets InternalValue to the new text at once, and
that is exactly the value handed to the rendered widget — synchronous,
with no dependence on the debounce duration. -/
theorem no_lag (s : CompState) (t : String) (hm : s.mounted = true) :
    (step s (.keystroke t)).internalValue = t ∧
    rendered (step s (.keystroke t)) = t := by
  have h : (step s (.keystroke t)).internalValue = t := by
    simp only [step, hm, if_true]
    unfold handleInputChange
    split
    · next heq => exact heq.symm
    · simp
  exact ⟨h, h⟩

/-- Witness for C8. -/
theorem no_lag_witness :
    (step (mount ⟨some "", some 0, 3000⟩) (.keystroke "a")).internalValue
        = "a" ∧
    rendered (step (mount ⟨some "", some 0, 3000⟩) (.keystroke "a")) = "a" :=
  no_lag (mount ⟨some "", some 0, 3000⟩) "a" rfl

/-- C9: re-supplying a `value` prop equal to the previous one does not
re-run the synchronization effect: InternalValue is untouched, so an
in-progress edit survives such a re-render. -/
theorem same_value_push_keeps_internal (s : CompState) (p : Props)
    (hm : s.mounted = true) (hv : p.value = s.props.value) :
    (step s (.setProps p)).internalValue = s.internalValue := by
  simp only [step, hm, if_true]
  unfold applyProps
  dsimp only
  rw [if_neg (by rintro ⟨h1, -⟩; exact h1 hv)]
  split
  · simp
  · rfl

/-- Witness for C9: a re-render repeating `value` while an edit is in
progress leaves the edit intact. -/
theorem same_value_push_keeps_internal_witness :
    (some "x" : Option String) = some "x" ∧
    (step (⟨⟨some "x", some 7, 500⟩, "y", some 0, [⟨0, "y", some 7, 500⟩],
        1, [], true⟩ : CompState)
      (.setProps ⟨some "x", some 9, 500⟩)).internalValue = "y" :=
  ⟨rfl, same_value_push_keeps_internal
    ⟨⟨some "x", some 7, 500⟩, "y", some 0, [⟨0, "y", some 7, 500⟩], 1, [], true⟩
    ⟨some "x", some 9, 500⟩ rfl rfl⟩

/-- C4 counterexample: with `debounceMs = 3000`, after typing `"a"` and
waiting 1000 ms, a further keystroke whose text is again `"a"` leaves the
state — in particular the running timer's 2000 ms countdown — entirely
untouched: the countdown is NOT restarted to 3000 ms.  (The state update
bails out and none of the debounce effect's dependencies changed, so the
effect does not re-run.) -/
theorem timer_reset_counterexample :
    run (mount ⟨none, some 0, 3000⟩)
        [.keystroke "a", .elapse 1000, .keystroke "a"] =
      run (mount ⟨none, some 0, 3000⟩) [.keystroke "a", .elapse 1000] ∧
    (run (mount ⟨none, some 0, 3000⟩)
        [.keystroke "a", .elapse 1000, .keystroke "a"]).timers.map
      Timer.remaining = [2000] ∧
    ¬ (run (mount ⟨none, some 0, 3000⟩)
        [.keystroke "a", .elapse 1000, .keystroke "a"]).timers.map
      Timer.remaining = [3000] := by
  refine ⟨by decide, by decide, by decide⟩

/-- C4 amended: while a timer may be pending, a further keystroke whose
text differs from InternalValue and still diverges from ExternalValue
replaces any pending timer by a fresh one with a full `debounceMs`
countdown (restarted, not extended); a keystroke whose text equals the
current InternalValue leaves the state — including the running countdown
— unchanged.  (An external-value push never leaves a divergence: it
synchronizes InternalValue, see C7.) -/
theorem timer_reset_amended (s : CompState) (k : String)
    (hwf : WF s) (hm : s.mounted = true) :
    (k ≠ s.internalValue → k ≠ extVal s.props →
      (step s (.keystroke k)).timers =
        [{ id := s.nextId, capturedInternal := k,
           capturedOnChange := s.props.onChange,
           remaining := s.props.debounceMs }] ∧
      ∀ t ∈ s.timers, t ∉ (step s (.keystroke k)).timers) ∧
    (k = s.internalValue → step s (.keystroke k) = s) := by
  constructor
  · intro hne hdiv
    have h1 : step s (.keystroke k) =
        runEffect2 { s with internalValue := k } := by
      simp [step, hm, handleInputChange, hne]
    have h2 := runEffect2_div { s with internalValue := k } hwf hdiv
    rw [h1, h2]
    refine ⟨rfl, ?_⟩
    rcases hwf with ⟨-, ht⟩ | ⟨t0, -, ht, hid⟩
    · rw [show s.timers = _ from ht]; intro t hmem; cases hmem
    · rw [show s.timers = _ from ht]
      intro t hmem
      rw [List.mem_singleton] at hmem
      subst hmem
      intro hmem2
      rw [List.mem_singleton] at hmem2
      have : t.id = s.nextId := by rw [hmem2]
      omega
  · intro heq
    simp [step, hm, handleInputChange, heq]

/-- Witness for the amended C4: both branches at concrete inputs. -/
theorem timer_reset_amended_witness :
    WF (⟨⟨some "x", some 7, 500⟩, "y", some 0, [⟨0, "y", some 7, 500⟩],
      1, [], true⟩ : CompState) ∧
    (step (⟨⟨some "x", some 7, 500⟩, "y", some 0, [⟨0, "y", some 7, 500⟩],
        1, [], true⟩ : CompState) (.keystroke "z")).timers =
      [⟨1, "z", some 7, 500⟩] ∧
    step (⟨⟨some "x", some 7, 500⟩, "y", some 0, [⟨0, "y", some 7, 500⟩],
        1, [], true⟩ : CompState) (.keystroke "y") =
      ⟨⟨some "x", some 7, 500⟩, "y", some 0, [⟨0, "y", some 7, 500⟩],
        1, [], true⟩ := by
  have h := timer_reset_amended
    ⟨⟨some "x", some 7, 500⟩, "y", some 0, [⟨0, "y", some 7, 500⟩], 1, [], true⟩
    "z" (Or.inr ⟨⟨0, "y", some 7, 500⟩, rfl, rfl, by decide⟩) rfl
  have h2 := timer_reset_amended
    ⟨⟨some "x", some 7, 500⟩, "y", some 0, [⟨0, "y", some 7, 500⟩], 1, [], true⟩
    "y" (Or.inr ⟨⟨0, "y", some 7, 500⟩, rfl, rfl, by decide⟩) rfl
  exact ⟨Or.inr ⟨⟨0, "y", some 7, 500⟩, rfl, rfl, by decide⟩,
    (h.1 (by decide) (by decide)).1, h2.2 rfl⟩

/-- C5: unmounting while a timer is pending cancels it and no commit is
ever invoked afterwards, whatever happens; and a change of any
scheduling dependency — a keystroke changing InternalValue, or new
props changing `value`, `onChange` or `debounceMs` — fires no commit
during the re-evaluation and removes every previously live timer, so
the cancelled timer's callback is never invoked for it. -/
theorem teardown_never_commits (s : CompState) (p : Props) (k : String)
    (evs : List Event) (hwf : WF s) (hm : s.mounted = true)
    (hp : p ≠ s.props) (hk : k ≠ s.internalValue) :
    (run (step s .unmount) evs).commits = s.commits ∧
    (step s (.setProps p)).commits = s.commits ∧
    (∀ t ∈ s.timers, t ∉ (step s (.setProps p)).timers) ∧
    (step s (.keystroke k)).commits = s.commits ∧
    ∀ t ∈ s.timers, t ∉ (step s (.keystroke k)).timers := by
  have hstep : step s (.setProps p) = applyProps s p := by simp [step, hm]
  have hks : step s (.keystroke k) = runEffect2 { s with internalValue := k } := by
    simp [step, hm, handleInputChange, hk]
  refine ⟨?_, ?_, ?_, by rw [hks]; simp, ?_⟩
  · have h1 : step s .unmount = teardown s := by simp [step, hm]
    have h2 : teardown s = { s with ref := none, timers := [], mounted := false } := by
      unfold teardown
      rw [effectCleanup_of_WF s hwf]
    rw [h1, h2, run_of_unmounted evs _ rfl rfl]
  · rw [hstep]; exact applyProps_commits s p
  · rw [hstep]
    rcases applyProps_timers_fresh s p hwf (props_ne_fields p s.props hp) with
      hnil | ⟨T, hT, hid⟩
    · rw [hnil]; intro t hmem hmem2; cases hmem2
    · rw [hT]
      rcases hwf with ⟨-, ht⟩ | ⟨t0, -, ht, hlt⟩
      · rw [show s.timers = _ from ht]; intro t hmem; cases hmem
      · rw [show s.timers = _ from ht]
        intro t hmem
        rw [List.mem_singleton] at hmem
        subst hmem
        intro hmem2
        rw [List.mem_singleton] at hmem2
        have : t.id = T.id := by rw [hmem2]
        omega
  · rw [hks]
    by_cases hdiv : k = extVal s.props
    · rw [runEffect2_idle { s with internalValue := k } hwf hdiv]
      intro t hmem hmem2
      cases hmem2
    · rw [runEffect2_div { s with internalValue := k } hwf hdiv]
      rcases hwf with ⟨-, ht⟩ | ⟨t0, -, ht, hlt⟩
      · rw [show s.timers = _ from ht]; intro t hmem; cases hmem
      · rw [show s.timers = _ from ht]
        intro t hmem
        rw [List.mem_singleton] at hmem
        subst hmem
        intro hmem2
        rw [List.mem_singleton] at hmem2
        have : t.id = s.nextId := by rw [hmem2]
        omega

/-- Witness for C5: unmount and a changed `onChange` prop, both while a
timer is pending. -/
theorem teardown_never_commits_witness :
    WF (⟨⟨some "x", some 7, 500⟩, "y", some 0, [⟨0, "y", some 7, 500⟩],
      1, [], true⟩ : CompState) ∧
    (⟨some "x", some 9, 500⟩ : Props) ≠ ⟨some "x", some 7, 500⟩ ∧
    (run (step (⟨⟨some "x", some 7, 500⟩, "y", some 0,
        [⟨0, "y", some 7, 500⟩], 1, [], true⟩ : CompState) .unmount)
      [.elapse 500, .elapse 500]).commits = [] ∧
    (step (⟨⟨some "x", some 7, 500⟩, "y", some 0, [⟨0, "y", some 7, 500⟩],
        1, [], true⟩ : CompState)
      (.setProps ⟨some "x", some 9, 500⟩)).commits = [] := by
  have h := teardown_never_commits
    ⟨⟨some "x", some 7, 500⟩, "y", some 0, [⟨0, "y", some 7, 500⟩], 1, [], true⟩
    ⟨some "x", some 9, 500⟩ "z" [.elapse 500, .elapse 500]
    (Or.inr ⟨⟨0, "y", some 7, 500⟩, rfl, rfl, by decide⟩)
    rfl (by decide) (by decide)
  exact ⟨Or.inr ⟨⟨0, "y", some 7, 500⟩, rfl, rfl, by decide⟩,
    by decide, h.1, h.2.1⟩

/-- C6: in every state reachable from mount there is at most one live
timer — every entry point cancels before (or instead of) scheduling. -/
theorem at_most_one_live_timer (p : Props) (evs : List Event) :
    (run (mount p) evs).timers.length ≤ 1 := by
  rcases wf_run (mount p) evs (wf_mount p) with ⟨-, h2⟩ | ⟨t, -, h2, -⟩ <;>
    rw [h2] <;> simp

/-- C10: replacing the commit callback and/or `debounceMs` while a timer
is pending (same `value`, still divergent) removes every previously live
timer and schedules a fresh one capturing the current InternalValue, the
NEW callback and the NEW duration, without firing a commit; when the new
duration then elapses, the commit carries the latest values. -/
theorem latest_values_reschedule (s : CompState) (p : Props) (cb : Nat)
    (hwf : WF s) (hm : s.mounted = true) (hv : p.value = s.props.value)
    (hdep : p.onChange ≠ s.props.onChange ∨ p.debounceMs ≠ s.props.debounceMs)
    (hdiv : s.internalValue ≠ extVal s.props)
    (hcb : p.onChange = some cb) :
    (step s (.setProps p)).timers =
      [{ id := s.nextId, capturedInternal := s.internalValue,
         capturedOnChange := some cb, remaining := p.debounceMs }] ∧
    (∀ t ∈ s.timers, t ∉ (step s (.setProps p)).timers) ∧
    (step s (.setProps p)).commits = s.commits ∧
    (advance (step s (.setProps p)) p.debounceMs).commits =
      s.commits ++ [{ targetValue := s.internalValue,
                      currentTargetValue := s.internalValue,
                      callback := cb }] := by
  have hext : extVal p = extVal s.props := by simp [extVal, hv]
  have hstep : step s (.setProps p) = applyProps s p := by simp [step, hm]
  have happ : applyProps s p = { s with
      props := p, ref := some s.nextId,
      timers := [{ id := s.nextId, capturedInternal := s.internalValue,
                   capturedOnChange := p.onChange,
                   remaining := p.debounceMs }],
      nextId := s.nextId + 1 } := by
    unfold applyProps
    dsimp only
    rw [if_pos (Or.inr hdep)]
    rw [runEffect2_div { s with props := p } hwf
      (by show s.internalValue ≠ extVal p; rw [hext]; exact hdiv)]
    rw [if_neg (by rintro ⟨h1, -⟩; exact h1 hv)]
  have hadv :
      advance ({ s with
        props := p, ref := some s.nextId,
        timers := [{ id := s.nextId, capturedInternal := s.internalValue,
                     capturedOnChange := p.onChange,
                     remaining := p.debounceMs }],
        nextId := s.nextId + 1 } : CompState) p.debounceMs =
      { s with
        props := p, ref := none, timers := [], nextId := s.nextId + 1,
        commits := s.commits ++
          [{ targetValue := s.internalValue,
             currentTargetValue := s.internalValue, callback := cb }] } := by
    unfold advance
    simp [fireTimer, hcb]
  rw [hstep, happ]
  refine ⟨by rw [hcb], ?_, rfl, by rw [hadv]⟩
  rcases hwf with ⟨-, ht⟩ | ⟨t0, -, ht, hlt⟩
  · rw [show s.timers = _ from ht]; intro t hmem; cases hmem
  · rw [show s.timers = _ from ht]
    intro t hmem
    rw [List.mem_singleton] at hmem
    subst hmem
    intro hmem2
    rw [List.mem_singleton] at hmem2
    have : t.id = s.nextId := by rw [hmem2]
    omega

/-- Witness for C10: swapping the callback (7 → 9) and the duration
(500 → 800) while a commit for `"y"` is pending. -/
theorem latest_values_reschedule_witness :
    WF (⟨⟨some "x", some 7, 500⟩, "y", some 0, [⟨0, "y", some 7, 500⟩],
      1, [], true⟩ : CompState) ∧
    (step (⟨⟨some "x", some 7, 500⟩, "y", some 0, [⟨0, "y", some 7, 500⟩],
        1, [], true⟩ : CompState)
      (.setProps ⟨some "x", some 9, 800⟩)).timers =
      [⟨1, "y", some 9, 800⟩] ∧
    (advance (step (⟨⟨some "x", some 7, 500⟩, "y", some 0,
        [⟨0, "y", some 7, 500⟩], 1, [], true⟩ : CompState)
      (.setProps ⟨some "x", some 9, 800⟩)) 800).commits =
      [⟨"y", "y", 9⟩] := by
  have h := latest_values_reschedule
    ⟨⟨some "x", some 7, 500⟩, "y", some 0, [⟨0, "y", some 7, 500⟩], 1, [], true⟩
    ⟨some "x", some 9, 800⟩ 9
    (Or.inr ⟨⟨0, "y", some 7, 500⟩, rfl, rfl, by decide⟩)
    rfl rfl (Or.inl (by decide)) (by decide) rfl
  exact ⟨Or.inr ⟨⟨0, "y", some 7, 500⟩, rfl, rfl, by decide⟩, h.1, h.2.2.2⟩

/-! ### Typing bursts (C2) -/

/-- The event list of a typing burst: each keystroke followed by the gap
before the next event. -/
def burst : List (String × Nat) → List Event
  | [] => []
  | (k, g) :: rest => Event.keystroke k :: Event.elapse g :: burst rest

/-- Every keystroke of the burst differs from the text it replaces (a
raw DOM input event fires when the value actually changes). -/
def stepwiseNew : String → List (String × Nat) → Prop
  | _, [] => True
  | prev, (k, _) :: rest => k ≠ prev ∧ stepwiseNew k rest

/-- The text after the last keystroke of the burst. -/
def lastText : String → List (String × Nat) → String
  | v, [] => v
  | _, (k, _) :: rest => lastText k rest

/-- Invariant maintained along a typing burst started from a freshly
mounted component: props and mount status are stable, InternalValue is
the last typed text, no commit has fired, and there is a single fresh
pending timer capturing the last text exactly when it diverges from the
external value. -/
def BurstInv (p : Props) (v : String) (s : CompState) : Prop :=
  s.props = p ∧ s.mounted = true ∧ s.internalValue = v ∧ s.commits = [] ∧
  (v = extVal p → s.ref = none ∧ s.timers = []) ∧
  (v ≠ extVal p → ∃ n r, n < s.nextId ∧ 0 < r ∧ s.ref = some n ∧
    s.timers = [{ id := n, capturedInternal := v,
                  capturedOnChange := p.onChange, remaining := r }])

lemma burstInv_wf (p : Props) (v : String) (s : CompState)
    (h : BurstInv p v s) : WF s := by
  obtain ⟨-, -, -, -, hidle, hdirty⟩ := h
  by_cases he : v = extVal p
  · left; exact hidle he
  · obtain ⟨n, r, hn, -, h1, h2⟩ := hdirty he
    right
    exact ⟨{ id := n, capturedInternal := v, capturedOnChange := p.onChange,
             remaining := r }, h1, h2, hn⟩

lemma burstInv_step (p : Props) (v k : String) (g : Nat) (s : CompState)
    (h : BurstInv p v s) (hk : k ≠ v) (hg : g < p.debounceMs) :
    BurstInv p k (step (step s (.keystroke k)) (.elapse g)) := by
  have hwf := burstInv_wf p v s h
  obtain ⟨hp, hm, hi, hc, -, -⟩ := h
  have hne : k ≠ s.internalValue := by rw [hi]; exact hk
  have h1 : step s (.keystroke k) = runEffect2 { s with internalValue := k } := by
    simp [step, hm, handleInputChange, hne]
  by_cases hke : k = extVal p
  · have h2 : runEffect2 { s with internalValue := k } =
        { s with internalValue := k, ref := none, timers := [] } :=
      runEffect2_idle _ hwf (by show k = extVal s.props; rw [hp]; exact hke)
    have h3 : step ({ s with
          internalValue := k, ref := none, timers := [] } : CompState)
        (.elapse g) =
        { s with internalValue := k, ref := none, timers := [] } :=
      advance_nil _ g rfl
    rw [h1, h2, h3]
    exact ⟨hp, hm, rfl, hc, fun _ => ⟨rfl, rfl⟩, fun hne2 => absurd hke hne2⟩
  · have h2 := runEffect2_div { s with internalValue := k } hwf
      (by show k ≠ extVal s.props; rw [hp]; exact hke)
    have hgle : ¬ (s.props.debounceMs ≤ g) := by rw [hp]; omega
    have h3 : step ({ s with
        internalValue := k, ref := some s.nextId,
        timers := [{ id := s.nextId, capturedInternal := k,
                     capturedOnChange := s.props.onChange,
                     remaining := s.props.debounceMs }],
        nextId := s.nextId + 1 } : CompState) (.elapse g) =
        { s with
          internalValue := k, ref := some s.nextId,
          timers := [{ id := s.nextId, capturedInternal := k,
                       capturedOnChange := s.props.onChange,
                       remaining := s.props.debounceMs - g }],
          nextId := s.nextId + 1 } := by
      show advance _ g = _
      unfold advance
      simp [hgle]
    rw [h1, h2, h3]
    refine ⟨hp, hm, rfl, hc, fun he => absurd he hke, fun _ => ?_⟩
    refine ⟨s.nextId, s.props.debounceMs - g, Nat.lt_succ_self _, ?_, rfl, ?_⟩
    · rw [hp]; omega
    · rw [hp]

lemma burstInv_run (p : Props) (ps : List (String × Nat)) :
    ∀ (v : String) (s : CompState), BurstInv p v s → stepwiseNew v ps →
      (∀ x ∈ ps, x.2 < p.debounceMs) →
      BurstInv p (lastText v ps) (run s (burst ps)) := by
  induction ps with
  | nil => intro v s h _ _; exact h
  | cons kg rest ih =>
    obtain ⟨k, g⟩ := kg
    intro v s h hd hg
    have h2 := burstInv_step p v k g s h hd.1 (hg (k, g) (by simp))
    show BurstInv p (lastText k rest)
      (run (step (step s (.keystroke k)) (.elapse g)) (burst rest))
    exact ih k _ h2 hd.2 (fun x hx => hg x (by simp [hx]))

lemma burst_final (p : Props) (v kf : String) (cb : Nat) (s : CompState)
    (h : BurstInv p v s) (hcb : p.onChange = some cb) (hk : kf ≠ v) :
    (run s [.keystroke kf, .elapse p.debounceMs]).commits =
      if kf = extVal p then [] else
        [{ targetValue := kf, currentTargetValue := kf, callback := cb }] := by
  have hwf := burstInv_wf p v s h
  obtain ⟨hp, hm, hi, hc, -, -⟩ := h
  have hne : kf ≠ s.internalValue := by rw [hi]; exact hk
  have h1 : step s (.keystroke kf) = runEffect2 { s with internalValue := kf } := by
    simp [step, hm, handleInputChange, hne]
  show (step (step s (.keystroke kf)) (.elapse p.debounceMs)).commits = _
  by_cases hke : kf = extVal p
  · have h2 : runEffect2 { s with internalValue := kf } =
        { s with internalValue := kf, ref := none, timers := [] } :=
      runEffect2_idle _ hwf (by show kf = extVal s.props; rw [hp]; exact hke)
    have h3 : step ({ s with
          internalValue := kf, ref := none, timers := [] } : CompState)
        (.elapse p.debounceMs) =
        { s with internalValue := kf, ref := none, timers := [] } :=
      advance_nil _ _ rfl
    rw [h1, h2, h3, if_pos hke]
    exact hc
  · have h2 := runEffect2_div { s with internalValue := kf } hwf
      (by show kf ≠ extVal s.props; rw [hp]; exact hke)
    rw [h1, h2, if_neg hke]
    show (advance _ p.debounceMs).commits = _
    unfold advance
    simp [fireTimer, hp, hcb, hc]

/-- C2 counterexample: owner value absent (read as `""`),
`debounceMs = 3000`; the user types `"a"` and, 1 ms later, deletes back
to `""`, then is silent for 3000 ms.  K = 2 keystrokes with gaps below
`debounceMs` and no external push — yet no commit at all fires (the
claim demands exactly one, carrying `""`). -/
theorem single_commit_counterexample :
    ¬ ((run (mount ⟨none, some 0, 3000⟩)
        [.keystroke "a", .elapse 1, .keystroke "", .elapse 3000]).commits.length
      = 1) := by
  decide

/-- C2 amended: starting from a freshly mounted component, for every
burst of K ≥ 1 keystrokes — each changing the text, with gaps below
`debounceMs` and no external push — followed by `debounceMs` of
silence: if the final text differs from ExternalValue, exactly one
commit fires, carrying the final text; if the final text equals
ExternalValue, no commit fires. -/
theorem single_commit_amended (p : Props) (ps : List (String × Nat))
    (kf : String) (cb : Nat) (hcb : p.onChange = some cb)
    (hg : ∀ x ∈ ps, x.2 < p.debounceMs)
    (hd : stepwiseNew (extVal p) ps)
    (hk : kf ≠ lastText (extVal p) ps) :
    (run (mount p)
        (burst ps ++ [.keystroke kf, .elapse p.debounceMs])).commits =
      if kf = extVal p then [] else
        [{ targetValue := kf, currentTargetValue := kf, callback := cb }] := by
  have h0 : BurstInv p (extVal p) (mount p) := by
    rw [mount_eq]
    exact ⟨rfl, rfl, rfl, rfl, fun _ => ⟨rfl, rfl⟩, fun hne => absurd rfl hne⟩
  have h1 := burstInv_run p ps (extVal p) (mount p) h0 hd hg
  rw [run, List.foldl_append]
  exact burst_final p _ kf cb _ h1 hcb hk

/-- Witness for the amended C2, at the spec's own example: owner value
`""`, `debounceMs = 3000`, user types `"a"` then `"ab"` 100 ms later,
then pauses — exactly one commit, carrying `"ab"`. -/
theorem single_commit_amended_witness :
    (∀ x ∈ [("a", 100)], x.2 < 3000) ∧
    stepwiseNew "" [("a", 100)] ∧ ("ab" : String) ≠ "a" ∧
    (run (mount ⟨some "", some 0, 3000⟩)
        (burst [("a", 100)] ++ [.keystroke "ab", .elapse 3000])).commits =
      [{ targetValue := "ab", currentTargetValue := "ab", callback := 0 }] := by
  have h := single_commit_amended ⟨some "", some 0, 3000⟩ [("a", 100)]
    "ab" 0 rfl (by decide) ⟨by decide, trivial⟩ (by decide)
  rw [if_neg (by decide)] at h
  exact ⟨by decide, ⟨by decide, trivial⟩, by decide, h⟩

end DebouncedTextInput
